import Mathlib

/-!
Verification development for the Chord global scheduler
(llumnix_part/global_scheduler: dispatch_policy_Chord.py,
migration_policy_Chord.py, global_scheduler_Chord.py).

Modelling conventions:
* Python ints are modelled as Int.
* Python floats that only enter order comparisons are modelled as XQ,
  an extended-rational type with negInf and posInf (IEEE minus/plus
  infinity); the indeterminate forms infinity minus infinity, which in
  IEEE produce NaN, are mapped to fin 0, a value on which every strict
  comparison performed by the code gives the same result as a NaN
  operand does under IEEE (all comparisons false in the contexts used).
* Python sorted(key, reverse) is a stable sort; it is embedded as an
  insertion sort, stableSort, that places an earlier element before a
  later one exactly when the comparison Python performs would.
* Python min(list, key) returns the first element attaining the
  minimal key; it is embedded as pyMinBy (a left fold with strict
  improvement, exactly the CPython loop).
* Python dicts are association lists in insertion order; assignment to
  an existing key overwrites in place (dictInsert), and set(...) of
  request ids is a Finset.
* Python exceptions (max of an empty list, indexing an empty list,
  modulo by zero) are totalized with Option none.
-/

/-- Extended rationals modelling IEEE floats as used by the scheduler:
finite values plus the two infinities. -/
inductive XQ where
  | negInf : XQ
  | fin : ℚ → XQ
  | posInf : XQ
deriving DecidableEq

namespace XQ

/-- IEEE strict less-than on the modelled floats. -/
def xlt : XQ → XQ → Bool
  | _, negInf => false
  | negInf, _ => true
  | posInf, _ => false
  | _, posInf => true
  | fin a, fin b => decide (a < b)

/-- IEEE less-or-equal, as the code tests it: not strictly greater. -/
def xle (a b : XQ) : Bool := !(xlt b a)

/-- IEEE subtraction on the modelled floats; the indeterminate forms
infinity minus infinity are mapped to fin 0 (see file header). -/
def xsub : XQ → XQ → XQ
  | fin a, fin b => fin (a - b)
  | negInf, negInf => fin 0
  | posInf, posInf => fin 0
  | negInf, _ => negInf
  | posInf, _ => posInf
  | _, negInf => posInf
  | _, posInf => negInf

end XQ

/-- Stable insertion of one element into a sorted list: x is placed
before the first element y with le x y. -/
def insertSorted (le : α → α → Bool) (x : α) : List α → List α
  | [] => [x]
  | y :: ys => if le x y then x :: y :: ys else y :: insertSorted le x ys

/-- Stable sort by the comparison le, embedding Python sorted: an
element earlier in the input is placed before a later element y
exactly when le holds of the pair. -/
def stableSort (le : α → α → Bool) (l : List α) : List α :=
  l.foldr (insertSorted le) []

/-- First element of x :: xs attaining the minimum under le (ties go
to the earlier element); this is the head of the stable sort. -/
def chooseFirst (le : α → α → Bool) (x : α) : List α → α
  | [] => x
  | y :: ys =>
    let m := chooseFirst le y ys
    if le x m then x else m

/-- Embedding of Python min(list, key): left fold keeping the current
minimum, replaced only on strict improvement, so the first minimal
element is returned. -/
def pyMinBy (k : α → Int) (x : α) (l : List α) : α :=
  l.foldl (fun b y => if k y < k b then y else b) x

/-- Association-list lookup, first match (Python dict access). -/
def dictLookup : List (String × β) → String → Option β
  | [], _ => none
  | (k1, v) :: rest, k => if k1 = k then some v else dictLookup rest k

/-- Association-list insertion mirroring Python dict assignment: an
existing key is overwritten in place, a new key is appended. -/
def dictInsert : List (String × β) → String → β → List (String × β)
  | [], k, v => [(k, v)]
  | (k1, v1) :: rest, k, v =>
    if k1 = k then (k, v) :: rest else (k1, v1) :: dictInsert rest k v

/-- Maximum of a list of ints (Python max); empty input, which raises
in Python, yields 0 here and is never reached by the callers. -/
def listMax : List Int → Int
  | [] => 0
  | x :: xs => xs.foldl max x

/-- Lexicographic strict order on char lists, code point by code
point: the order both Lean and Python use on strings. -/
def charListLt : List Char → List Char → Bool
  | [], [] => false
  | [], _ :: _ => true
  | _ :: _, [] => false
  | c :: cs, d :: ds =>
    if c < d then true else if d < c then false else charListLt cs ds

/-- Telemetry snapshot of one serving instance (llumnix InstanceInfo),
restricted to the fields the scheduler decision logic reads.
Block counts and queue sizes are Python ints; the migration load
metrics are floats, modelled as XQ. -/
structure InstanceInfo where
  instance_id : String
  num_total_gpu_blocks : Int := 0
  num_used_gpu_blocks : Int := 0
  num_free_gpu_blocks : Int := 0
  num_watermark_blocks : Int := 0
  num_waiting_requests : Int := 0
  num_running_requests : Int := 0
  num_blocks_all_waiting_requests : Int := 0
  migration_load_metric : XQ := XQ.fin 0
  migration_load_metric_after_migrate_out : XQ := XQ.fin 0
  migration_load_metric_after_migrate_in : XQ := XQ.fin 0
deriving DecidableEq

/-- Request descriptor: the scheduler reads only the id and the block
demand. -/
structure Request where
  request_id : String
  n_blocks : Int
deriving DecidableEq

namespace Loadv2

/-- Embedding of Loadv2.dispatch (dispatch_policy_Chord.py lines 56-93)
up to the choice of the instance-info record whose id is returned:
compute the maximum used-block count, branch on whether every
available instance has an empty waiting queue, filter and stably sort
as the source does, and take the head of the sorted list. An empty
candidate list, on which Python raises, yields none. -/
def dispatchInfo (available_instance_infos : List InstanceInfo) (req_n_blocks : Int) :
    Option InstanceInfo :=
  match available_instance_infos with
  | [] => none
  | _ :: _ =>
    let max_used_blocks := listMax (available_instance_infos.map (·.num_used_gpu_blocks))
    let filtered_dst_instance_infos :=
      available_instance_infos.filter (fun x => x.num_waiting_requests == 0)
    if filtered_dst_instance_infos.length = available_instance_infos.length then
      let filtered_dst_instance_infos_II :=
        available_instance_infos.filter
          (fun x => 0 ≤ max_used_blocks - x.num_watermark_blocks - x.num_used_gpu_blocks
                      - req_n_blocks)
      if 0 < filtered_dst_instance_infos_II.length then
        (stableSort (fun a b =>
            decide (max_used_blocks - a.num_watermark_blocks - a.num_used_gpu_blocks - req_n_blocks
              ≤ max_used_blocks - b.num_watermark_blocks - b.num_used_gpu_blocks - req_n_blocks))
          filtered_dst_instance_infos_II).head?
      else
        (stableSort (fun a b =>
            decide (a.num_used_gpu_blocks + req_n_blocks + a.num_watermark_blocks - max_used_blocks
              ≤ b.num_used_gpu_blocks + req_n_blocks + b.num_watermark_blocks - max_used_blocks))
          available_instance_infos).head?
    else
      (stableSort (fun a b => decide (b.num_waiting_requests ≤ a.num_waiting_requests))
        available_instance_infos).head?

/-- Loadv2.dispatch returns the instance_id of the head of the sorted
list (source line 91). -/
def dispatch (available_instance_infos : List InstanceInfo) (req_n_blocks : Int) :
    Option String :=
  (dispatchInfo available_instance_infos req_n_blocks).map (·.instance_id)

end Loadv2

namespace RoundRobin

/-- Lexicographic order on ids as Python compares strings: a may be
placed before b when b is not strictly smaller (comparison on the
underlying char lists). -/
def strLe (a b : String) : Bool := !(charListLt b.data a.data)

/-- Embedding of RoundRobin.dispatch (dispatch_policy_Chord.py lines
135-144): sort the known ids, advance the cursor modulo the count,
return the id at the cursor together with the new cursor. An empty id
set, on which Python raises a zero-division error, yields none. -/
def dispatch (instance_num_requests_keys : List String) (prev_instance_idx : Int) :
    Option String × Int :=
  let all_instance_ids := stableSort strLe instance_num_requests_keys
  if all_instance_ids.length = 0 then (none, prev_instance_idx)
  else
    let cur_instance_idx := (prev_instance_idx + 1) % (all_instance_ids.length : Int)
    (all_instance_ids.get? cur_instance_idx.toNat, cur_instance_idx)

/-- K successive dispatch calls against a fixed id set, threading the
cursor; a fresh policy object starts at cursor -1 (source line 133). -/
def run (ids : List String) : Nat → Int → List (Option String)
  | 0, _ => []
  | Nat.succ k, prev =>
    let step := dispatch ids prev
    step.1 :: run ids k step.2

end RoundRobin

namespace Urgency

/-- Embedding of Urgency.get_src_instances (migration_policy_Chord.py
lines 61-70): if some instance has a non-empty waiting queue, return
the ids of ALL input instances sorted descending by
num_waiting_requests (the source sorts src_instance_infos, not the
filtered list); otherwise none. -/
def get_src_instances (src_instance_infos : List InstanceInfo) : Option (List String) :=
  let filtered_src_instance_infos :=
    src_instance_infos.filter (fun x => 0 < x.num_waiting_requests)
  if filtered_src_instance_infos.length ≠ 0 then
    some ((stableSort (fun a b => decide (b.num_waiting_requests ≤ a.num_waiting_requests))
            src_instance_infos).map (·.instance_id))
  else none

/-- Sort key of Urgency.get_dst_instance (source line 84): free blocks
over running requests plus epsilon, evaluated in exact rationals. -/
def dstKey (x : InstanceInfo) : ℚ :=
  (x.num_free_gpu_blocks : ℚ) / ((x.num_running_requests : ℚ) + 1 / 100000)

/-- Head of the admissibility-filtered, descending-sorted candidate
list of Urgency.get_dst_instance (source lines 82-85); none when the
filter is empty. -/
def get_dst_head (dst_instance_infos : List InstanceInfo) (req_n_blocks : Int) :
    Option InstanceInfo :=
  let filtered_dst_instance_infos := dst_instance_infos.filter
      (fun x => 0 < x.num_free_gpu_blocks - x.num_watermark_blocks - req_n_blocks)
  (stableSort (fun a b => decide (dstKey b ≤ dstKey a)) filtered_dst_instance_infos).head?

/-- Embedding of Urgency.get_dst_instance (migration_policy_Chord.py
lines 72-96): the head of the sorted admissible candidates, demoted to
none when it equals the source instance. -/
def get_dst_instance (dst_instance_infos : List InstanceInfo) (src_instance_id : String)
    (target_request : Request) : Option String :=
  match get_dst_head dst_instance_infos target_request.n_blocks with
  | none => none
  | some i => if i.instance_id = src_instance_id then none else some i.instance_id

end Urgency

namespace Balanced

/-- Acceptance test applied by Balanced.pair_migration to one lockstep
pair (migration_policy_Chord.py lines 108-115): skip when the receiver
load after migrate-in exceeds the threshold, otherwise accept when the
load difference strictly shrinks while staying positive, or when the
receiver metric is minus infinity. -/
def acceptBool (migrate_out_load_threshold : XQ) (p : InstanceInfo × InstanceInfo) : Bool :=
  let load_diff_before_mig :=
    XQ.xsub p.1.migration_load_metric p.2.migration_load_metric
  let left_load_after_mig := p.1.migration_load_metric_after_migrate_out
  let right_load_after_mig := p.2.migration_load_metric_after_migrate_in
  if XQ.xlt migrate_out_load_threshold right_load_after_mig then false
  else
    let load_diff_after_mig := XQ.xsub left_load_after_mig right_load_after_mig
    (XQ.xlt (XQ.fin 0) load_diff_after_mig && XQ.xlt load_diff_after_mig load_diff_before_mig)
      || (p.2.migration_load_metric == XQ.negInf)

/-- The info pairs accepted by Balanced.pair_migration: sources sorted
descending and destinations ascending by migration_load_metric, walked
in lockstep (zip), keeping the pairs passing acceptBool. -/
def acceptedPairs (migrate_out_load_threshold : XQ)
    (src_instance_infos dst_instance_infos : List InstanceInfo) :
    List (InstanceInfo × InstanceInfo) :=
  let sorted_src_instance_infos :=
    stableSort (fun a b => XQ.xle b.migration_load_metric a.migration_load_metric)
      src_instance_infos
  let sorted_dst_instance_infos :=
    stableSort (fun a b => XQ.xle a.migration_load_metric b.migration_load_metric)
      dst_instance_infos
  (sorted_src_instance_infos.zip sorted_dst_instance_infos).filter
    (acceptBool migrate_out_load_threshold)

/-- Embedding of Balanced.pair_migration (migration_policy_Chord.py
lines 99-118): the id pairs of the accepted info pairs. -/
def pair_migration (migrate_out_load_threshold : XQ)
    (src_instance_infos dst_instance_infos : List InstanceInfo) : List (String × String) :=
  (acceptedPairs migrate_out_load_threshold src_instance_infos dst_instance_infos).map
    (fun p => (p.1.instance_id, p.2.instance_id))

end Balanced

namespace GlobalScheduler

/-- The GlobalScheduler state components the verified operations
touch: the derived instance count, the authoritative id set, and the
snapshot table in dict insertion order. -/
structure State where
  num_instances : Nat
  instance_id_set : Finset String
  instance_info : List (String × InstanceInfo)
deriving DecidableEq

/-- Embedding of GlobalScheduler.update_instance_infos
(global_scheduler_Chord.py lines 50-53): each snapshot whose id is in
instance_id_set overwrites the table entry; other snapshots are
dropped. -/
def update_instance_infos (s : State) (instance_infos : List InstanceInfo) : State :=
  instance_infos.foldl
    (fun st info =>
      if info.instance_id ∈ st.instance_id_set then
        { st with instance_info := dictInsert st.instance_info info.instance_id info }
      else st) s

/-- Modelled from the spec: ScalingScheduler.get_empty_instance_info
is not under src/; per the spec, scale_up inserts a placeholder
InstanceInfo with all counters zero and the id set. -/
def emptyInstanceInfo (ins_id : String) : InstanceInfo := { instance_id := ins_id }

/-- Per-instance launch arguments; opaque to the scheduler state. -/
inductive InstanceArgs where
  | mk : InstanceArgs
deriving DecidableEq

/-- One iteration of the scale_up loop (global_scheduler_Chord.py
lines 168-174 with _add_instance lines 193-195): an id not yet known
gets a placeholder snapshot, joins the id set, and the derived count
is refreshed; a known id is skipped. -/
def scale_up_step (st : State) (p : String × InstanceArgs) : State :=
  if p.1 ∈ st.instance_id_set then st
  else
    let newSet := insert p.1 st.instance_id_set
    { num_instances := newSet.card
      instance_id_set := newSet
      instance_info := dictInsert st.instance_info p.1 (emptyInstanceInfo p.1) }

/-- Embedding of GlobalScheduler.scale_up together with _add_instance
restricted to the verified state (global_scheduler_Chord.py lines
164-176 and 193-195): iterate over zip(instance_ids, instance_args),
applying scale_up_step; return the final count as the operation
result. -/
def scale_up (s : State) (instance_ids : List String) (instance_args : List InstanceArgs) :
    State × Nat :=
  let s2 := (instance_ids.zip instance_args).foldl scale_up_step s
  (s2, s2.num_instances)

/-- Candidate table of the redispatch planner: association list from
instance id to (free blocks already net of the watermark, used
blocks), as produced by get_redispatch_dst_infos. -/
abbrev Cands := List (String × Int × Int)

/-- The candidates with positive free count (source lines 99 and 137). -/
def availEntries (candidate_instances : Cands) : Cands :=
  candidate_instances.filter (fun e => 0 < e.2.1)

/-- Maximum used-block count over the available candidates (source
line 105). -/
def maxUsedOf (candidate_instances : Cands) : Int :=
  listMax ((availEntries candidate_instances).map (fun e => e.2.2))

/-- Destination selection of one planner iteration
(global_scheduler_Chord.py lines 105-123): none when no available
candidate can hold the request (the break at line 109); otherwise the
first minimizer over the frontier set when it is non-empty, else the
first minimizer of the overshoot over the fitting set. -/
def planChoose (candidate_instances : Cands) (request : Request) : Option String :=
  let avail := availEntries candidate_instances
  let max_used_blocks := maxUsedOf candidate_instances
  let filtered_dst_instances := avail.filter (fun e => 0 < e.2.1 - request.n_blocks)
  match filtered_dst_instances with
  | [] => none
  | f :: fs =>
    let filtered_dst_instances_II :=
      avail.filter (fun e => 0 < max_used_blocks - e.2.2 - request.n_blocks)
    match filtered_dst_instances_II with
    | g :: gs =>
      some (pyMinBy (fun e => max_used_blocks - (e.2.2 + request.n_blocks)) g gs).1
    | [] =>
      some (pyMinBy (fun e => e.2.2 + request.n_blocks - max_used_blocks) f fs).1

/-- Candidate-table commitment of one planner iteration (source lines
133-134): the chosen id loses n blocks of free and gains n of used. -/
def planUpdate (candidate_instances : Cands) (tgt : String) (n : Int) : Cands :=
  candidate_instances.map (fun e => if e.1 = tgt then (e.1, e.2.1 - n, e.2.2 + n) else e)

/-- Plan accumulation (source lines 126-128): append the request to
the list of its destination, creating the entry on first use. -/
def plansAdd : List (String × List Request) → String → Request → List (String × List Request)
  | [], tgt, r => [(tgt, [r])]
  | (k, v) :: rest, tgt, r =>
    if k = tgt then (k, v ++ [r]) :: rest else (k, v) :: plansAdd rest tgt r

/-- The request loop of derive_redispatching_plans (source lines
104-139): for each request choose a destination, stop with the
accumulated plan when none exists, otherwise record the request unless
it stays on the master, commit the blocks, and stop when no candidate
has free blocks left. Returns the plan and the final candidate table. -/
def planLoop (master_instance_id : String) :
    List Request → Cands → List (String × List Request) →
    List (String × List Request) × Cands
  | [], c, acc => (acc, c)
  | r :: rs, c, acc =>
    match planChoose c r with
    | none => (acc, c)
    | some tgt =>
      let acc2 := if tgt ≠ master_instance_id then plansAdd acc tgt r else acc
      let c2 := planUpdate c tgt r.n_blocks
      if (availEntries c2).isEmpty then (acc2, c2)
      else planLoop master_instance_id rs c2 acc2

/-- Free plus used blocks recorded for one candidate id, the quantity
conserved by the planner. -/
def sumAt (candidate_instances : Cands) (ins : String) : Option Int :=
  (dictLookup candidate_instances ins).map (fun p => p.1 + p.2)

/-- Embedding of GlobalScheduler.derive_redispatching_plans
(global_scheduler_Chord.py lines 89-146): run the request loop unless
no candidate has free blocks at entry, then post-process each
destination list to the set of its request ids. -/
def derive_redispatching_plans (master_instance_id : String)
    (global_waiting_requests : List Request) (candidate_instances : Cands) :
    List (String × Finset String) :=
  let redispatch_plans :=
    if (availEntries candidate_instances).isEmpty then []
    else (planLoop master_instance_id global_waiting_requests candidate_instances []).1
  redispatch_plans.map (fun p => (p.1, (p.2.map (·.request_id)).toFinset))

end GlobalScheduler

/-- Inserting into a list is a permutation of consing. -/
theorem insertSorted_perm (le : α → α → Bool) (x : α) (l : List α) :
    List.Perm (insertSorted le x l) (x :: l) := by
  induction l with
  | nil => simp [insertSorted]
  | cons y ys ih =>
    simp only [insertSorted]
    by_cases h : le x y
    · simp [h]
    · simp only [h]
      exact List.Perm.trans (ih.cons y) (List.Perm.swap x y ys)

/-- The stable sort permutes its input. -/
theorem stableSort_perm (le : α → α → Bool) (l : List α) :
    List.Perm (stableSort le l) l := by
  induction l with
  | nil => exact List.Perm.refl _
  | cons x xs ih =>
    exact List.Perm.trans (insertSorted_perm le x (stableSort le xs)) (ih.cons x)

/-- The head of the stable sort of a non-empty list is the first
minimal element. -/
theorem stableSort_head (le : α → α → Bool) (x : α) (xs : List α) :
    (stableSort le (x :: xs)).head? = some (chooseFirst le x xs) := by
  induction xs generalizing x with
  | nil => rfl
  | cons y ys ih =>
    have h2 := ih y
    cases hS : stableSort le (y :: ys) with
    | nil => rw [hS] at h2; simp at h2
    | cons h t =>
      rw [hS] at h2
      simp only [List.head?] at h2
      have hh : h = chooseFirst le y ys := by injection h2
      have hx : stableSort le (x :: y :: ys) = insertSorted le x (h :: t) := by
        show insertSorted le x (stableSort le (y :: ys)) = _
        rw [hS]
      rw [hx]
      simp only [insertSorted, chooseFirst, ← hh]
      by_cases hc : le x h
      · simp [hc]
      · simp [hc]

/-- The chosen first minimum is an element of the list. -/
theorem chooseFirst_mem (le : α → α → Bool) (x : α) (xs : List α) :
    chooseFirst le x xs ∈ x :: xs := by
  induction xs generalizing x with
  | nil => simp [chooseFirst]
  | cons y ys ih =>
    simp only [chooseFirst]
    by_cases h : le x (chooseFirst le y ys)
    · simp [h]
    · simp only [h, if_neg, Bool.false_eq_true, not_false_eq_true]
      exact List.mem_cons_of_mem x (ih y)

/-- For a total transitive comparison, the chosen first minimum is
below every element. -/
theorem chooseFirst_le (le : α → α → Bool)
    (htot : ∀ a b : α, le a b = true ∨ le b a = true)
    (htrans : ∀ a b c : α, le a b = true → le b c = true → le a c = true)
    (x : α) (xs : List α) :
    ∀ y ∈ x :: xs, le (chooseFirst le x xs) y = true := by
  induction xs generalizing x with
  | nil =>
    intro y hy
    simp only [List.mem_singleton] at hy
    subst hy
    simp only [chooseFirst]
    rcases htot y y with h | h <;> exact h
  | cons z zs ih =>
    intro y hy
    simp only [chooseFirst]
    by_cases h : le x (chooseFirst le z zs)
    · simp only [h, if_true]
      rcases List.mem_cons.mp hy with rfl | hy2
      · rcases htot y y with hh | hh <;> exact hh
      · exact htrans _ _ _ h (ih z y hy2)
    · simp only [h, if_false, Bool.false_eq_true]
      rcases List.mem_cons.mp hy with rfl | hy2
      · rcases htot y (chooseFirst le z zs) with hh | hh
        · exact absurd hh h
        · exact hh
      · exact ih z y hy2

/-- Unfolding of the Python min fold over a cons cell. -/
theorem pyMinBy_cons (k : α → Int) (x y : α) (ys : List α) :
    pyMinBy k x (y :: ys) = pyMinBy k (if k y < k x then y else x) ys := rfl

/-- The Python min is an element of the list. -/
theorem pyMinBy_mem (k : α → Int) : ∀ (l : List α) (x : α), pyMinBy k x l ∈ x :: l := by
  intro l
  induction l with
  | nil => intro x; simp [pyMinBy]
  | cons y ys ih =>
    intro x
    rw [pyMinBy_cons]
    by_cases h : k y < k x
    · simp only [h, if_true]
      exact List.mem_cons_of_mem x (ih y)
    · simp only [h, if_false]
      rcases List.mem_cons.mp (ih x) with hx | hm
      · rw [hx]; exact List.mem_cons_self _ _
      · exact List.mem_cons_of_mem _ (List.mem_cons_of_mem _ hm)

/-- The Python min has the minimal key. -/
theorem pyMinBy_le (k : α → Int) :
    ∀ (l : List α) (x : α), ∀ y ∈ x :: l, k (pyMinBy k x l) ≤ k y := by
  intro l
  induction l with
  | nil =>
    intro x y hy
    simp only [List.mem_singleton] at hy
    subst hy
    simp [pyMinBy]
  | cons z zs ih =>
    intro x y hy
    rw [pyMinBy_cons]
    have hbase : ∀ w, k (if k z < k x then z else x) ≤ k w → k (pyMinBy k (if k z < k x then z else x) zs) ≤ k w := by
      intro w hw
      exact le_trans (ih _ _ (List.mem_cons_self _ _)) hw
    rcases List.mem_cons.mp hy with rfl | hy2
    · apply hbase
      by_cases h : k z < k y
      · simp only [h, if_true]; exact le_of_lt h
      · simp only [h, if_false]; exact le_refl _
    · rcases List.mem_cons.mp hy2 with rfl | hy3
      · apply hbase
        by_cases h : k y < k x
        · simp only [h, if_true]; exact le_refl _
        · simp only [h, if_false]; exact le_of_not_lt h
      · exact ih _ y (List.mem_cons_of_mem _ hy3)

/-- A fold of max stays below any common upper bound. -/
theorem foldl_max_le (T : Int) :
    ∀ (l : List Int) (a : Int), a ≤ T → (∀ b ∈ l, b ≤ T) → l.foldl max a ≤ T := by
  intro l
  induction l with
  | nil => intro a ha _; simpa using ha
  | cons x xs ih =>
    intro a ha hall
    simp only [List.foldl_cons]
    exact ih (max a x) (max_le ha (hall x (List.mem_cons_self _ _)))
      (fun b hb => hall b (List.mem_cons_of_mem _ hb))

/-- listMax is below any common upper bound of a non-empty list. -/
theorem listMax_le (T : Int) (x : Int) (xs : List Int)
    (hall : ∀ b ∈ x :: xs, b ≤ T) : listMax (x :: xs) ≤ T := by
  simp only [listMax]
  exact foldl_max_le T xs x (hall x (List.mem_cons_self _ _))
    (fun b hb => hall b (List.mem_cons_of_mem _ hb))

/-- A filter keeps the full length exactly when the predicate holds
everywhere. -/
theorem filter_length_eq_iff (p : α → Bool) :
    ∀ l : List α, ((l.filter p).length = l.length) ↔ ∀ a ∈ l, p a = true := by
  intro l
  induction l with
  | nil => simp
  | cons x xs ih =>
    rw [List.filter_cons]
    by_cases h : p x
    · simp [h, ih]
    · simp only [h, if_false, Bool.false_eq_true]
      constructor
      · intro hlen
        exfalso
        have hle := List.length_filter_le p xs
        simp only [List.length_cons] at hlen
        omega
      · intro hall
        exact absurd (hall x (List.mem_cons_self _ _)) (by simp [h])

/-- Inserting under one key leaves lookups at other keys unchanged. -/
theorem dictLookup_dictInsert_ne (k k2 : String) (v : β) (h : k ≠ k2) :
    ∀ l : List (String × β), dictLookup (dictInsert l k v) k2 = dictLookup l k2 := by
  intro l
  induction l with
  | nil => simp [dictInsert, dictLookup, h]
  | cons e rest ih =>
    obtain ⟨k1, v1⟩ := e
    simp only [dictInsert]
    by_cases h1 : k1 = k
    · subst h1
      simp [dictLookup, h, if_neg]
    · simp only [h1, if_false]
      simp only [dictLookup]
      by_cases h2 : k1 = k2
      · simp [h2]
      · simp [h2, ih]

/-- Inserting into a sorted list keeps it sorted, for a total
transitive comparison. -/
theorem insertSorted_pairwise (le : α → α → Bool)
    (htot : ∀ a b : α, le a b = true ∨ le b a = true)
    (htrans : ∀ a b c : α, le a b = true → le b c = true → le a c = true)
    (x : α) :
    ∀ l : List α, l.Pairwise (fun a b => le a b = true) →
      (insertSorted le x l).Pairwise (fun a b => le a b = true) := by
  intro l
  induction l with
  | nil => intro _; simp [insertSorted]
  | cons y ys ih =>
    intro hl
    rcases List.pairwise_cons.mp hl with ⟨hy, hys⟩
    simp only [insertSorted]
    by_cases h : le x y
    · simp only [h, if_true]
      refine List.pairwise_cons.mpr ⟨?_, hl⟩
      intro z hz
      rcases List.mem_cons.mp hz with rfl | hz2
      · exact h
      · exact htrans _ _ _ h (hy z hz2)
    · simp only [h, if_false]
      refine List.pairwise_cons.mpr ⟨?_, ih hys⟩
      intro z hz
      have hz2 := (insertSorted_perm le x ys).mem_iff.mp hz
      rcases List.mem_cons.mp hz2 with hzx | hz3
      · rw [hzx]
        rcases htot x y with hxy | hyx
        · exact absurd hxy h
        · exact hyx
      · exact hy z hz3

/-- The stable sort is sorted, for a total transitive comparison. -/
theorem stableSort_pairwise (le : α → α → Bool)
    (htot : ∀ a b : α, le a b = true ∨ le b a = true)
    (htrans : ∀ a b c : α, le a b = true → le b c = true → le a c = true) :
    ∀ l : List α, (stableSort le l).Pairwise (fun a b => le a b = true) := by
  intro l
  induction l with
  | nil => simp [stableSort]
  | cons x xs ih => exact insertSorted_pairwise le htot htrans x _ ih

/-- Occurrences of one value among the first s naturals. -/
theorem countP_range_eq (j : Nat) :
    ∀ s : Nat, (List.range s).countP (fun k => k == j) = if j < s then 1 else 0 := by
  intro s
  induction s with
  | zero => simp
  | succ s ih =>
    have hr : List.range (s + 1) = List.range s ++ [s] := by
      simpa using List.range_succ (n := s)
    rw [hr, List.countP_append, ih]
    simp only [List.countP_cons, List.countP_nil]
    by_cases h : s = j
    · subst h
      simp [Nat.lt_succ_iff, Nat.lt_irrefl]
    · have hb : (s == j) = false := by simp [h]
      rw [hb]
      by_cases h2 : j < s
      · have : j < s + 1 := Nat.lt_succ_of_lt h2
        simp [h2, this]
      · have : ¬ j < s + 1 := by omega
        simp [h2, this]

/-- Occurrences of a residue among the first N q + s naturals, for
s at most N. -/
theorem countP_range_mod (N : Nat) (hN : 0 < N) :
    ∀ (q s j : Nat), s ≤ N → j < N →
      (List.range (N * q + s)).countP (fun k => k % N == j)
        = q + (if j < s then 1 else 0) := by
  intro q
  induction q with
  | zero =>
    intro s j hs hj
    simp only [Nat.mul_zero, Nat.zero_add]
    have hcong : (List.range s).countP (fun k => k % N == j)
        = (List.range s).countP (fun k => k == j) := by
      apply List.countP_congr
      intro k hk
      have hks : k < s := List.mem_range.mp hk
      rw [Nat.mod_eq_of_lt (lt_of_lt_of_le hks hs)]
    rw [hcong, countP_range_eq]
  | succ q ih =>
    intro s j hs hj
    have hrw : N * (q + 1) + s = N + (N * q + s) := by ring
    rw [hrw, List.range_add, List.countP_append, List.countP_map]
    have h1 : (List.range N).countP (fun k => k % N == j) = 1 := by
      have hcong : (List.range N).countP (fun k => k % N == j)
          = (List.range N).countP (fun k => k == j) := by
        apply List.countP_congr
        intro k hk
        rw [Nat.mod_eq_of_lt (List.mem_range.mp hk)]
      rw [hcong, countP_range_eq]
      simp [hj]
    have h2 : (List.range (N * q + s)).countP ((fun k => k % N == j) ∘ (N + ·))
        = (List.range (N * q + s)).countP (fun k => k % N == j) := by
      apply List.countP_congr
      intro k _
      simp only [Function.comp_apply]
      rw [Nat.add_mod_left]
    rw [h1, h2, ih s j hs hj]
    omega

/-- Occurrences of a residue among the first K naturals. -/
theorem countP_range_mod_full (N K j : Nat) (hN : 0 < N) (hj : j < N) :
    (List.range K).countP (fun k => k % N == j)
      = K / N + (if j < K % N then 1 else 0) := by
  have h := countP_range_mod N hN (K / N) (K % N) j
    (le_of_lt (Nat.mod_lt K hN)) hj
  rwa [Nat.div_add_mod] at h

/-- When K is not a multiple of N, the rounded-up quotient is one more
than the rounded-down quotient. -/
theorem ceil_div_of_mod_pos (K N : Nat) (hN : 0 < N) (hr : K % N ≠ 0) :
    K / N + 1 = (K + N - 1) / N := by
  have hK : N * (K / N) + K % N = K := Nat.div_add_mod K N
  have hrlt : K % N < N := Nat.mod_lt K hN
  have hsub : K % N - 1 < N := lt_of_le_of_lt (Nat.sub_le _ _) hrlt
  have hstep : K + N - 1 = (K % N - 1) + N * (K / N + 1) := by
    rw [Nat.mul_succ]
    set A := N * (K / N) with hA
    omega
  rw [hstep, Nat.add_mul_div_left _ _ hN, Nat.div_eq_of_lt hsub]
  omega

/-- When K is a multiple of N, rounding up changes nothing. -/
theorem ceil_div_of_mod_eq_zero (K N : Nat) (hN : 0 < N) (hr : K % N = 0) :
    K / N = (K + N - 1) / N := by
  have hK : N * (K / N) + K % N = K := Nat.div_add_mod K N
  have hsub : N - 1 < N := by omega
  have hstep : K + N - 1 = (N - 1) + N * (K / N) := by
    set A := N * (K / N) with hA
    omega
  rw [hstep, Nat.add_mul_div_left _ _ hN, Nat.div_eq_of_lt hsub]
  omega

/-- The snapshot-ingestion fold never changes the id set or the
derived count. -/
theorem update_foldl_frame (infos : List InstanceInfo) :
    ∀ s : GlobalScheduler.State,
      (GlobalScheduler.update_instance_infos s infos).instance_id_set = s.instance_id_set
      ∧ (GlobalScheduler.update_instance_infos s infos).num_instances = s.num_instances := by
  induction infos with
  | nil => intro s; exact ⟨rfl, rfl⟩
  | cons i is ih =>
    intro s
    simp only [GlobalScheduler.update_instance_infos, List.foldl_cons]
    by_cases h : i.instance_id ∈ s.instance_id_set
    · simp only [h, if_true]
      exact ih _
    · simp only [h, if_false]
      exact ih s

/-- The snapshot-ingestion fold leaves table entries at keys outside
the id set untouched. -/
theorem update_foldl_lookup (infos : List InstanceInfo) :
    ∀ (s : GlobalScheduler.State) (k : String), k ∉ s.instance_id_set →
      dictLookup (GlobalScheduler.update_instance_infos s infos).instance_info k
        = dictLookup s.instance_info k := by
  induction infos with
  | nil => intro s k _; rfl
  | cons i is ih =>
    intro s k hk
    simp only [GlobalScheduler.update_instance_infos, List.foldl_cons]
    by_cases h : i.instance_id ∈ s.instance_id_set
    · simp only [h, if_true]
      have hne : i.instance_id ≠ k := fun he => hk (he ▸ h)
      have hstep := ih { s with
          instance_info := dictInsert s.instance_info i.instance_id i } k hk
      simp only [GlobalScheduler.update_instance_infos] at hstep
      rw [hstep]
      exact dictLookup_dictInsert_ne i.instance_id k i hne s.instance_info
    · simp only [h, if_false]
      exact ih s k hk

/-- C9: update_instance_infos never changes instance_id_set or
num_instances, changes the snapshot table only at keys inside
instance_id_set, and a snapshot for an unknown id is silently dropped,
leaving the whole state unchanged. -/
theorem update_instance_infos_frame :
    (∀ (s : GlobalScheduler.State) (infos : List InstanceInfo),
        (GlobalScheduler.update_instance_infos s infos).instance_id_set = s.instance_id_set
        ∧ (GlobalScheduler.update_instance_infos s infos).num_instances = s.num_instances)
    ∧ (∀ (s : GlobalScheduler.State) (infos : List InstanceInfo) (k : String),
        k ∉ s.instance_id_set →
        dictLookup (GlobalScheduler.update_instance_infos s infos).instance_info k
          = dictLookup s.instance_info k)
    ∧ (∀ (s : GlobalScheduler.State) (info : InstanceInfo),
        info.instance_id ∉ s.instance_id_set →
        GlobalScheduler.update_instance_infos s [info] = s) := by
  refine ⟨fun s infos => update_foldl_frame infos s,
          fun s infos k hk => update_foldl_lookup infos s k hk, ?_⟩
  intro s info h
  simp [GlobalScheduler.update_instance_infos, h]

/-- C9 witness: a snapshot for id b is dropped by a scheduler that
only knows id a. -/
theorem update_instance_infos_frame_witness :
    dictLookup (GlobalScheduler.update_instance_infos
        ⟨1, {"a"}, [("a", { instance_id := "a" })]⟩
        [{ instance_id := "b" }]).instance_info "b"
      = dictLookup [(("a" : String), ({ instance_id := "a" } : InstanceInfo))] "b"
    ∧ GlobalScheduler.update_instance_infos
        ⟨1, {"a"}, [("a", { instance_id := "a" })]⟩ [{ instance_id := "b" }]
      = ⟨1, {"a"}, [("a", { instance_id := "a" })]⟩ := by
  constructor
  · exact update_instance_infos_frame.2.1
      ⟨1, {"a"}, [("a", { instance_id := "a" })]⟩ [{ instance_id := "b" }] "b" (by decide)
  · exact update_instance_infos_frame.2.2
      ⟨1, {"a"}, [("a", { instance_id := "a" })]⟩ { instance_id := "b" } (by decide)

/-- Zipping truncates the left list at the length of the right one. -/
theorem zip_take_left : ∀ (l1 : List γ) (l2 : List δ),
    l1.zip l2 = (l1.take l2.length).zip l2 := by
  intro l1
  induction l1 with
  | nil => intro l2; simp
  | cons x xs ih =>
    intro l2
    cases l2 with
    | nil => simp
    | cons y ys =>
      simp only [List.length_cons, List.take_succ_cons, List.zip_cons_cons]
      rw [ih ys]

/-- The scale_up fold neither adds an id that occurs in no processed
pair nor creates a table entry for it. -/
theorem scale_up_fold_frame (ins : String) :
    ∀ (ps : List (String × GlobalScheduler.InstanceArgs)) (s : GlobalScheduler.State),
      ins ∉ ps.map Prod.fst → ins ∉ s.instance_id_set →
      dictLookup s.instance_info ins = none →
      ins ∉ (ps.foldl GlobalScheduler.scale_up_step s).instance_id_set
      ∧ dictLookup (ps.foldl GlobalScheduler.scale_up_step s).instance_info ins = none := by
  intro ps
  induction ps with
  | nil => intro s _ h2 h3; exact ⟨h2, h3⟩
  | cons p ps ih =>
    intro s h1 h2 h3
    simp only [List.map_cons, List.mem_cons] at h1
    push_neg at h1
    obtain ⟨hne, hrest⟩ := h1
    simp only [List.foldl_cons]
    apply ih _ hrest
    · simp only [GlobalScheduler.scale_up_step]
      by_cases h : p.1 ∈ s.instance_id_set
      · simp only [h, if_true]
        exact h2
      · simp only [h, if_false, Finset.mem_insert]
        push_neg
        exact ⟨hne, h2⟩
    · simp only [GlobalScheduler.scale_up_step]
      by_cases h : p.1 ∈ s.instance_id_set
      · simp only [h, if_true]
        exact h3
      · simp only [h, if_false]
        rw [dictLookup_dictInsert_ne p.1 ins _ (Ne.symm hne)]
        exact h3

/-- C10: scale_up processes only the first m = length(instance_args)
ids of a longer id list; the remaining ids are neither added to the id
set nor given a placeholder table entry, and the returned count equals
the count of the truncated call. -/
theorem scale_up_zip_truncation :
    (∀ (s : GlobalScheduler.State) (ids : List String)
        (args : List GlobalScheduler.InstanceArgs),
        GlobalScheduler.scale_up s ids args
          = GlobalScheduler.scale_up s (ids.take args.length) args)
    ∧ (∀ (s : GlobalScheduler.State) (ids : List String)
        (args : List GlobalScheduler.InstanceArgs) (ins : String),
        args.length < ids.length →
        ins ∈ ids.drop args.length →
        ins ∉ ids.take args.length →
        ins ∉ s.instance_id_set →
        dictLookup s.instance_info ins = none →
        ins ∉ (GlobalScheduler.scale_up s ids args).1.instance_id_set
        ∧ dictLookup (GlobalScheduler.scale_up s ids args).1.instance_info ins = none) := by
  constructor
  · intro s ids args
    have hz := zip_take_left ids args
    have hz2 : (ids.take args.length).zip args
        = ((ids.take args.length).take args.length).zip args :=
      zip_take_left (ids.take args.length) args
    simp only [GlobalScheduler.scale_up]
    rw [hz, hz2]
  · intro s ids args ins hlen hdrop htake hset htab
    have hz := zip_take_left ids args
    have htlen : (ids.take args.length).length = args.length := by
      rw [List.length_take]
      omega
    have hmap : (ids.zip args).map Prod.fst = ids.take args.length := by
      rw [hz]
      exact List.map_fst_zip _ _ (le_of_eq htlen)
    have hnotin : ins ∉ (ids.zip args).map Prod.fst := by
      rw [hmap]; exact htake
    simpa only [GlobalScheduler.scale_up] using
      scale_up_fold_frame ins (ids.zip args) s hnotin hset htab

/-- C10 witness: two ids with one argument record; the second id is
not added. -/
theorem scale_up_zip_truncation_witness :
    GlobalScheduler.scale_up ⟨0, ∅, []⟩ ["a", "b"] [GlobalScheduler.InstanceArgs.mk]
      = GlobalScheduler.scale_up ⟨0, ∅, []⟩
          (["a", "b"].take [GlobalScheduler.InstanceArgs.mk].length)
          [GlobalScheduler.InstanceArgs.mk]
    ∧ ("b" ∉ (GlobalScheduler.scale_up ⟨0, ∅, []⟩ ["a", "b"]
          [GlobalScheduler.InstanceArgs.mk]).1.instance_id_set
        ∧ dictLookup (GlobalScheduler.scale_up ⟨0, ∅, []⟩ ["a", "b"]
            [GlobalScheduler.InstanceArgs.mk]).1.instance_info "b" = none) := by
  constructor
  · exact scale_up_zip_truncation.1 ⟨0, ∅, []⟩ ["a", "b"] [GlobalScheduler.InstanceArgs.mk]
  · exact scale_up_zip_truncation.2 ⟨0, ∅, []⟩ ["a", "b"] [GlobalScheduler.InstanceArgs.mk]
      "b" (by decide) (by decide) (by decide) (by decide) (by decide)

/-- C5: when no available candidate can hold the current request, the
planner loop stops at once: the current request and every subsequent
request are left unplaced, the candidate table is not mutated further,
and the plan accumulated so far is returned; at top level the whole
plan starting from such a request is empty. -/
theorem planner_abort_on_infeasible :
    (∀ (master : String) (c : GlobalScheduler.Cands) (r : Request)
        (rs : List Request) (acc : List (String × List Request)),
        (GlobalScheduler.availEntries c).filter (fun e => 0 < e.2.1 - r.n_blocks) = [] →
        GlobalScheduler.planLoop master (r :: rs) c acc = (acc, c))
    ∧ (∀ (master : String) (c : GlobalScheduler.Cands) (r : Request) (rs : List Request),
        (GlobalScheduler.availEntries c).filter (fun e => 0 < e.2.1 - r.n_blocks) = [] →
        GlobalScheduler.derive_redispatching_plans master (r :: rs) c = []) := by
  have hchoose : ∀ (c : GlobalScheduler.Cands) (r : Request),
      (GlobalScheduler.availEntries c).filter (fun e => 0 < e.2.1 - r.n_blocks) = [] →
      GlobalScheduler.planChoose c r = none := by
    intro c r h
    simp only [GlobalScheduler.planChoose, h]
  have hA : ∀ (master : String) (c : GlobalScheduler.Cands) (r : Request)
      (rs : List Request) (acc : List (String × List Request)),
      (GlobalScheduler.availEntries c).filter (fun e => 0 < e.2.1 - r.n_blocks) = [] →
      GlobalScheduler.planLoop master (r :: rs) c acc = (acc, c) := by
    intro master c r rs acc h
    simp [GlobalScheduler.planLoop, hchoose c r h]
  refine ⟨hA, ?_⟩
  intro master c r rs h
  by_cases hav : (GlobalScheduler.availEntries c).isEmpty
  · simp [GlobalScheduler.derive_redispatching_plans, hav]
  · have hres := hA master c r rs [] h
    simp [GlobalScheduler.derive_redispatching_plans, hav, hres]

/-- C5 witness: a single candidate with 5 free blocks cannot hold a
5-block request (strict inequality required), so the loop stops with
the accumulated plan and untouched candidates. -/
theorem planner_abort_on_infeasible_witness :
    (GlobalScheduler.availEntries [("a", 5, 0)]).filter
        (fun e => 0 < e.2.1 - (5 : Int)) = []
    ∧ GlobalScheduler.planLoop "m"
        [{ request_id := "r1", n_blocks := 5 }, { request_id := "r2", n_blocks := 1 }]
        [("a", 5, 0)] [("b", [{ request_id := "r0", n_blocks := 1 }])]
      = ([("b", [{ request_id := "r0", n_blocks := 1 }])], [("a", 5, 0)]) := by
  refine ⟨by decide, ?_⟩
  exact planner_abort_on_infeasible.1 "m" [("a", 5, 0)]
    { request_id := "r1", n_blocks := 5 } [{ request_id := "r2", n_blocks := 1 }]
    [("b", [{ request_id := "r0", n_blocks := 1 }])] (by decide)

/-- One planner commitment conserves free plus used at every id. -/
theorem sumAt_planUpdate (tgt : String) (n : Int) (ins : String) :
    ∀ c : GlobalScheduler.Cands,
      GlobalScheduler.sumAt (GlobalScheduler.planUpdate c tgt n) ins
        = GlobalScheduler.sumAt c ins := by
  intro c
  induction c with
  | nil => rfl
  | cons e rest ih =>
    obtain ⟨k1, f, u⟩ := e
    simp only [GlobalScheduler.planUpdate, List.map_cons]
    by_cases h : k1 = tgt
    · simp only [h, if_true]
      by_cases h2 : tgt = ins
      · have harith : (f - n) + (u + n) = f + u := by ring
        simp [GlobalScheduler.sumAt, dictLookup, h2, harith]
      · simp only [GlobalScheduler.sumAt, dictLookup, h2, if_false]
        simpa only [GlobalScheduler.planUpdate, GlobalScheduler.sumAt] using ih
    · simp only [h, if_false]
      by_cases h2 : k1 = ins
      · simp only [GlobalScheduler.sumAt, dictLookup, h2, if_true]
      · simp only [GlobalScheduler.sumAt, dictLookup, h2, if_false]
        simpa only [GlobalScheduler.planUpdate, GlobalScheduler.sumAt] using ih

/-- C7: the quantity free plus used of every candidate id is conserved
by each planner commitment and hence across the whole planner loop:
its value in the final candidate table equals its value at entry. -/
theorem planner_conserves_blocks :
    (∀ (c : GlobalScheduler.Cands) (tgt : String) (n : Int) (ins : String),
        GlobalScheduler.sumAt (GlobalScheduler.planUpdate c tgt n) ins
          = GlobalScheduler.sumAt c ins)
    ∧ (∀ (master : String) (reqs : List Request) (c : GlobalScheduler.Cands)
        (acc : List (String × List Request)) (ins : String),
        GlobalScheduler.sumAt (GlobalScheduler.planLoop master reqs c acc).2 ins
          = GlobalScheduler.sumAt c ins) := by
  refine ⟨fun c tgt n ins => sumAt_planUpdate tgt n ins c, ?_⟩
  intro master reqs
  induction reqs with
  | nil => intro c acc ins; rfl
  | cons r rs ih =>
    intro c acc ins
    cases hpc : GlobalScheduler.planChoose c r with
    | none => simp [GlobalScheduler.planLoop, hpc]
    | some tgt =>
      simp only [GlobalScheduler.planLoop, hpc]
      by_cases hav :
          (GlobalScheduler.availEntries (GlobalScheduler.planUpdate c tgt r.n_blocks)).isEmpty
      · rw [if_pos hav]
        exact sumAt_planUpdate tgt r.n_blocks ins c
      · rw [if_neg hav]
        rw [ih _ _ ins]
        exact sumAt_planUpdate tgt r.n_blocks ins c

/-- C3: every pair accepted by Balanced.pair_migration satisfies the
anti-ping-pong guard: the receiver load after migrate-in does not
exceed the threshold, and either the load difference after migration
is strictly between zero and the difference before, or the receiver
metric is minus infinity. -/
theorem balanced_pair_migration_guard :
    ∀ (th : XQ) (srcs dsts : List InstanceInfo) (s d : InstanceInfo),
      (s, d) ∈ Balanced.acceptedPairs th srcs dsts →
      (s.instance_id, d.instance_id) ∈ Balanced.pair_migration th srcs dsts
      ∧ XQ.xle d.migration_load_metric_after_migrate_in th = true
      ∧ ((XQ.xlt (XQ.fin 0)
              (XQ.xsub s.migration_load_metric_after_migrate_out
                d.migration_load_metric_after_migrate_in) = true
          ∧ XQ.xlt
              (XQ.xsub s.migration_load_metric_after_migrate_out
                d.migration_load_metric_after_migrate_in)
              (XQ.xsub s.migration_load_metric d.migration_load_metric) = true)
        ∨ d.migration_load_metric = XQ.negInf) := by
  intro th srcs dsts s d hmem
  have hpm : (s.instance_id, d.instance_id) ∈ Balanced.pair_migration th srcs dsts := by
    simpa [Balanced.pair_migration] using List.mem_map_of_mem
      (fun p : InstanceInfo × InstanceInfo => (p.1.instance_id, p.2.instance_id)) hmem
  simp only [Balanced.acceptedPairs] at hmem
  have hacc : Balanced.acceptBool th (s, d) = true := (List.mem_filter.mp hmem).2
  simp only [Balanced.acceptBool] at hacc
  split at hacc
  case isTrue hcond => exact absurd hacc (by simp)
  case isFalse hcond =>
    refine ⟨hpm, ?_, ?_⟩
    · simp only [XQ.xle]
      simpa using hcond
    · simp only [Bool.or_eq_true, Bool.and_eq_true, beq_iff_eq] at hacc
      exact hacc

/-- C3 witness: a source at load 10 migrating into a receiver whose
metric is minus infinity (empty instance) under threshold 100 is
accepted, and the guard facts hold for it. -/
theorem balanced_pair_migration_guard_witness :
    (({ instance_id := "s", migration_load_metric := XQ.fin 10,
        migration_load_metric_after_migrate_out := XQ.fin 5 } : InstanceInfo),
     ({ instance_id := "d", migration_load_metric := XQ.negInf,
        migration_load_metric_after_migrate_in := XQ.negInf } : InstanceInfo))
      ∈ Balanced.acceptedPairs (XQ.fin 100)
        [{ instance_id := "s", migration_load_metric := XQ.fin 10,
           migration_load_metric_after_migrate_out := XQ.fin 5 }]
        [{ instance_id := "d", migration_load_metric := XQ.negInf,
           migration_load_metric_after_migrate_in := XQ.negInf }]
    ∧ (("s", "d")
        ∈ Balanced.pair_migration (XQ.fin 100)
          [{ instance_id := "s", migration_load_metric := XQ.fin 10,
             migration_load_metric_after_migrate_out := XQ.fin 5 }]
          [{ instance_id := "d", migration_load_metric := XQ.negInf,
             migration_load_metric_after_migrate_in := XQ.negInf }]
        ∧ XQ.xle XQ.negInf (XQ.fin 100) = true
        ∧ ((XQ.xlt (XQ.fin 0) (XQ.xsub (XQ.fin 5) XQ.negInf) = true
            ∧ XQ.xlt (XQ.xsub (XQ.fin 5) XQ.negInf)
                (XQ.xsub (XQ.fin 10) XQ.negInf) = true)
          ∨ XQ.negInf = XQ.negInf)) := by
  have hmem : (({ instance_id := "s", migration_load_metric := XQ.fin 10,
                  migration_load_metric_after_migrate_out := XQ.fin 5 } : InstanceInfo),
               ({ instance_id := "d", migration_load_metric := XQ.negInf,
                  migration_load_metric_after_migrate_in := XQ.negInf } : InstanceInfo))
      ∈ Balanced.acceptedPairs (XQ.fin 100)
        [{ instance_id := "s", migration_load_metric := XQ.fin 10,
           migration_load_metric_after_migrate_out := XQ.fin 5 }]
        [{ instance_id := "d", migration_load_metric := XQ.negInf,
           migration_load_metric_after_migrate_in := XQ.negInf }] := by
    have hval : Balanced.acceptedPairs (XQ.fin 100)
        [{ instance_id := "s", migration_load_metric := XQ.fin 10,
           migration_load_metric_after_migrate_out := XQ.fin 5 }]
        [{ instance_id := "d", migration_load_metric := XQ.negInf,
           migration_load_metric_after_migrate_in := XQ.negInf }]
        = [({ instance_id := "s", migration_load_metric := XQ.fin 10,
              migration_load_metric_after_migrate_out := XQ.fin 5 },
            { instance_id := "d", migration_load_metric := XQ.negInf,
              migration_load_metric_after_migrate_in := XQ.negInf })] := by decide
    rw [hval]
    exact List.mem_singleton.mpr rfl
  exact ⟨hmem, balanced_pair_migration_guard (XQ.fin 100) _ _ _ _ hmem⟩

/-- C4 counterexample: with one instance waiting (a) and one idle (b),
get_src_instances returns the ids of BOTH instances (the source sorts
the unfiltered list), so an id with zero waiting requests appears in
the result, contradicting the claim that only instances with positive
waiting queues are returned. -/
theorem urgency_get_src_instances_counterexample :
    Urgency.get_src_instances
        [{ instance_id := "a", num_waiting_requests := 1 },
         { instance_id := "b", num_waiting_requests := 0 }]
      = some ["a", "b"]
    ∧ "b" ∈ (["a", "b"] : List String)
    ∧ ({ instance_id := "b", num_waiting_requests := 0 } : InstanceInfo).num_waiting_requests
      = 0 := by decide

/-- C4 amended: if no instance has waiting requests the result is
none; otherwise the result is the ids of ALL input instances (not only
those with positive waiting queues), sorted descending by
num_waiting_requests with stable ties; the sorted list is a
permutation of the input and is pairwise descending. -/
theorem urgency_get_src_instances_characterization :
    ∀ infos : List InstanceInfo,
      (infos.filter (fun x => 0 < x.num_waiting_requests) = [] →
          Urgency.get_src_instances infos = none)
      ∧ (infos.filter (fun x => 0 < x.num_waiting_requests) ≠ [] →
          Urgency.get_src_instances infos
            = some ((stableSort
                (fun a b => decide (b.num_waiting_requests ≤ a.num_waiting_requests))
                infos).map (·.instance_id))
          ∧ List.Perm (stableSort
                (fun a b => decide (b.num_waiting_requests ≤ a.num_waiting_requests)) infos)
              infos
          ∧ (stableSort (fun a b => decide (b.num_waiting_requests ≤ a.num_waiting_requests))
              infos).Pairwise
              (fun a b => b.num_waiting_requests ≤ a.num_waiting_requests)) := by
  intro infos
  constructor
  · intro h
    simp [Urgency.get_src_instances, h]
  · intro h
    have hlen : (infos.filter (fun x => decide (0 < x.num_waiting_requests))).length ≠ 0 := by
      simpa [List.length_eq_zero] using h
    refine ⟨by simp [Urgency.get_src_instances, hlen], stableSort_perm _ _, ?_⟩
    have hp := stableSort_pairwise
      (fun a b : InstanceInfo => decide (b.num_waiting_requests ≤ a.num_waiting_requests))
      (fun a b => by
        rcases le_total b.num_waiting_requests a.num_waiting_requests with hh | hh
        · exact Or.inl (decide_eq_true hh)
        · exact Or.inr (decide_eq_true hh))
      (fun a b c h1 h2 =>
        decide_eq_true (le_trans (of_decide_eq_true h2) (of_decide_eq_true h1)))
      infos
    exact hp.imp (fun h => of_decide_eq_true h)

/-- C4 amended witness: two instances, both returned, in descending
waiting order. -/
theorem urgency_get_src_instances_characterization_witness :
    Urgency.get_src_instances
        [{ instance_id := "a", num_waiting_requests := 1 },
         { instance_id := "b", num_waiting_requests := 3 }]
      = some ((stableSort
          (fun a b : InstanceInfo => decide (b.num_waiting_requests ≤ a.num_waiting_requests))
          [{ instance_id := "a", num_waiting_requests := 1 },
           { instance_id := "b", num_waiting_requests := 3 }]).map (·.instance_id)) :=
  ((urgency_get_src_instances_characterization
      [{ instance_id := "a", num_waiting_requests := 1 },
       { instance_id := "b", num_waiting_requests := 3 }]).2 (by decide)).1

/-- C6: get_dst_instance returns none when no instance is admissible
for the request; otherwise it returns the first admissible instance
maximizing free blocks over running requests plus epsilon, demoted to
none when that head is the source instance; it never returns the
source id. -/
theorem urgency_get_dst_instance_characterization :
    ∀ (infos : List InstanceInfo) (src : String) (req : Request),
      (infos.filter (fun x =>
          0 < x.num_free_gpu_blocks - x.num_watermark_blocks - req.n_blocks) = [] →
        Urgency.get_dst_instance infos src req = none)
      ∧ (∀ e es, infos.filter (fun x =>
            0 < x.num_free_gpu_blocks - x.num_watermark_blocks - req.n_blocks) = e :: es →
          (Urgency.get_dst_instance infos src req
            = if (chooseFirst
                    (fun a b => decide (Urgency.dstKey b ≤ Urgency.dstKey a)) e es).instance_id
                  = src
              then none
              else some (chooseFirst
                    (fun a b => decide (Urgency.dstKey b ≤ Urgency.dstKey a)) e es).instance_id)
          ∧ chooseFirst (fun a b => decide (Urgency.dstKey b ≤ Urgency.dstKey a)) e es ∈ e :: es
          ∧ ∀ y ∈ e :: es, Urgency.dstKey y
              ≤ Urgency.dstKey (chooseFirst
                  (fun a b => decide (Urgency.dstKey b ≤ Urgency.dstKey a)) e es))
      ∧ (∀ d, Urgency.get_dst_instance infos src req = some d → d ≠ src) := by
  intro infos src req
  refine ⟨?_, ?_, ?_⟩
  · intro h
    have hh : Urgency.get_dst_head infos req.n_blocks = none := by
      simp only [Urgency.get_dst_head, h]
      rfl
    simp only [Urgency.get_dst_instance, hh]
  · intro e es h
    have hhead : Urgency.get_dst_head infos req.n_blocks
        = some (chooseFirst (fun a b => decide (Urgency.dstKey b ≤ Urgency.dstKey a)) e es) := by
      simp only [Urgency.get_dst_head, h]
      exact stableSort_head _ e es
    refine ⟨?_, chooseFirst_mem _ e es, ?_⟩
    · simp only [Urgency.get_dst_instance, hhead]
    · intro y hy
      have hle := chooseFirst_le
        (fun a b : InstanceInfo => decide (Urgency.dstKey b ≤ Urgency.dstKey a))
        (fun a b => by
          rcases le_total (Urgency.dstKey b) (Urgency.dstKey a) with hh | hh
          · exact Or.inl (decide_eq_true hh)
          · exact Or.inr (decide_eq_true hh))
        (fun a b c h1 h2 =>
          decide_eq_true (le_trans (of_decide_eq_true h2) (of_decide_eq_true h1)))
        e es y hy
      exact of_decide_eq_true hle
  · intro d hd
    cases hh : Urgency.get_dst_head infos req.n_blocks with
    | none =>
      simp only [Urgency.get_dst_instance, hh] at hd
      exact Option.noConfusion hd
    | some i =>
      simp only [Urgency.get_dst_instance, hh] at hd
      by_cases hi : i.instance_id = src
      · rw [if_pos hi] at hd; simp at hd
      · rw [if_neg hi] at hd
        have : i.instance_id = d := by injection hd
        rw [← this]
        exact hi

/-- C6 witness: a single admissible candidate a distinct from the
source b is returned and differs from the source id. -/
theorem urgency_get_dst_instance_characterization_witness :
    Urgency.get_dst_instance
        [{ instance_id := "a", num_free_gpu_blocks := 100, num_watermark_blocks := 1 }]
        "b" { request_id := "r", n_blocks := 10 }
      = some "a"
    ∧ "a" ≠ "b" := by
  have h := urgency_get_dst_instance_characterization
      [{ instance_id := "a", num_free_gpu_blocks := 100, num_watermark_blocks := 1 }]
      "b" { request_id := "r", n_blocks := 10 }
  have h2 := (h.2.1 { instance_id := "a", num_free_gpu_blocks := 100,
                      num_watermark_blocks := 1 } [] (by decide)).1
  have heq : Urgency.get_dst_instance
      [{ instance_id := "a", num_free_gpu_blocks := 100, num_watermark_blocks := 1 }]
      "b" { request_id := "r", n_blocks := 10 } = some "a" := by
    rw [h2]; rfl
  exact ⟨heq, h.2.2 "a" heq⟩

/-- C2: full characterization of Loadv2.dispatch on a non-empty
candidate list. With M the maximum used-block count: when every
instance has an empty waiting queue and the under-frontier set is
non-empty, the first instance minimizing the slack
M - watermark - used - req is returned; when that set is empty, the
first instance minimizing used + req + watermark - M; otherwise the
first instance maximizing num_waiting_requests. chooseFirst breaks
ties by first occurrence. -/
theorem loadv2_dispatch_characterization :
    ∀ (req : Int) (x : InstanceInfo) (xs : List InstanceInfo),
      ((∀ j ∈ x :: xs, j.num_waiting_requests = 0) →
        (∀ e es,
          (x :: xs).filter (fun i =>
              0 ≤ listMax ((x :: xs).map (·.num_used_gpu_blocks))
                - i.num_watermark_blocks - i.num_used_gpu_blocks - req) = e :: es →
          Loadv2.dispatch (x :: xs) req
            = some (chooseFirst (fun a b => decide
                  (listMax ((x :: xs).map (·.num_used_gpu_blocks))
                      - a.num_watermark_blocks - a.num_used_gpu_blocks - req
                    ≤ listMax ((x :: xs).map (·.num_used_gpu_blocks))
                      - b.num_watermark_blocks - b.num_used_gpu_blocks - req))
                e es).instance_id)
        ∧ ((x :: xs).filter (fun i =>
              0 ≤ listMax ((x :: xs).map (·.num_used_gpu_blocks))
                - i.num_watermark_blocks - i.num_used_gpu_blocks - req) = [] →
          Loadv2.dispatch (x :: xs) req
            = some (chooseFirst (fun a b => decide
                  (a.num_used_gpu_blocks + req + a.num_watermark_blocks
                      - listMax ((x :: xs).map (·.num_used_gpu_blocks))
                    ≤ b.num_used_gpu_blocks + req + b.num_watermark_blocks
                      - listMax ((x :: xs).map (·.num_used_gpu_blocks))))
                x xs).instance_id))
      ∧ ((¬ ∀ j ∈ x :: xs, j.num_waiting_requests = 0) →
          Loadv2.dispatch (x :: xs) req
            = some (chooseFirst (fun a b =>
                decide (b.num_waiting_requests ≤ a.num_waiting_requests)) x xs).instance_id) := by
  intro req x xs
  constructor
  · intro hall
    have hlen : ((x :: xs).filter (fun i => i.num_waiting_requests == 0)).length
        = (x :: xs).length := by
      refine (filter_length_eq_iff _ _).mpr ?_
      intro a ha
      simpa using hall a ha
    constructor
    · intro e es hfil
      simp only [Loadv2.dispatch, Loadv2.dispatchInfo]
      rw [if_pos hlen, hfil]
      rw [if_pos (by simp : 0 < (e :: es).length)]
      rw [stableSort_head]
      rfl
    · intro hfil
      simp only [Loadv2.dispatch, Loadv2.dispatchInfo]
      rw [if_pos hlen, hfil]
      rw [if_neg (by simp)]
      rw [stableSort_head]
      rfl
  · intro hnot
    have hlen : ¬ ((x :: xs).filter (fun i => i.num_waiting_requests == 0)).length
        = (x :: xs).length := by
      intro hcon
      apply hnot
      intro a ha
      have := (filter_length_eq_iff (fun i : InstanceInfo => i.num_waiting_requests == 0)
        (x :: xs)).mp hcon a ha
      simpa using this
    simp only [Loadv2.dispatch, Loadv2.dispatchInfo]
    rw [if_neg hlen]
    rw [stableSort_head]
    rfl

/-- C2 witness: three idle instances with used blocks 40, 20, 10,
watermark 5, request of 8 blocks; the frontier is 40 and the tightest
fit below it is the instance with 20 used blocks. -/
theorem loadv2_dispatch_characterization_witness :
    Loadv2.dispatch
        [{ instance_id := "a", num_used_gpu_blocks := 40, num_watermark_blocks := 5 },
         { instance_id := "b", num_used_gpu_blocks := 20, num_watermark_blocks := 5 },
         { instance_id := "c", num_used_gpu_blocks := 10, num_watermark_blocks := 5 }] 8
      = some "b" := by
  have h := ((loadv2_dispatch_characterization 8
      { instance_id := "a", num_used_gpu_blocks := 40, num_watermark_blocks := 5 }
      [{ instance_id := "b", num_used_gpu_blocks := 20, num_watermark_blocks := 5 },
       { instance_id := "c", num_used_gpu_blocks := 10, num_watermark_blocks := 5 }]).1
      (by decide)).1
      { instance_id := "b", num_used_gpu_blocks := 20, num_watermark_blocks := 5 }
      [{ instance_id := "c", num_used_gpu_blocks := 10, num_watermark_blocks := 5 }]
      (by decide)
  rw [h]
  rfl

/-- C1 counterexample: in derive_redispatching_plans the frontier
branch chooses destination a, whose free count net of the watermark is
1, for a 10-block request, even though the admissible candidate b
(free 100) exists; the chosen destination violates
free - n_blocks >= 0 while neither the overshoot fallback was taken
nor were admissible candidates absent. -/
theorem admissibility_counterexample :
    GlobalScheduler.derive_redispatching_plans "m"
        [{ request_id := "r1", n_blocks := 10 }]
        [("a", 1, 0), ("b", 100, 50)]
      = [("a", ({"r1"} : Finset String))]
    ∧ dictLookup [(("a", 1, 0) : String × Int × Int), ("b", 100, 50)] "a" = some (1, 0)
    ∧ (1 : Int) - 10 < 0
    ∧ dictLookup [(("a", 1, 0) : String × Int × Int), ("b", 100, 50)] "b" = some (100, 50)
    ∧ 0 < (100 : Int) - 10 := by decide

/-- C1 amended: admissibility holds for Urgency.get_dst_instance
unconditionally; in derive_redispatching_plans it holds for the
overshoot fallback branch (empty frontier set), while the frontier
branch can violate it (see the counterexample); for Loadv2 in the
non-overloaded case it holds under the data-model invariants
(free = total - used, used + watermark at most total, watermark
nonnegative, uniform total) unless the overshoot branch was taken and
no admissible candidate existed. -/
theorem admissibility_amended :
    (∀ (infos : List InstanceInfo) (src : String) (req : Request) (d : String),
        Urgency.get_dst_instance infos src req = some d →
        ∃ i, i ∈ infos ∧ i.instance_id = d
          ∧ 0 < i.num_free_gpu_blocks - i.num_watermark_blocks - req.n_blocks)
    ∧ (∀ (c : GlobalScheduler.Cands) (r : Request) (t : String),
        (GlobalScheduler.availEntries c).filter
            (fun e => 0 < GlobalScheduler.maxUsedOf c - e.2.2 - r.n_blocks) = [] →
        GlobalScheduler.planChoose c r = some t →
        ∃ e, e ∈ GlobalScheduler.availEntries c ∧ e.1 = t ∧ 0 < e.2.1 - r.n_blocks)
    ∧ (∀ (T req : Int) (infos : List InstanceInfo) (i : InstanceInfo),
        (∀ j ∈ infos,
            j.num_free_gpu_blocks = j.num_total_gpu_blocks - j.num_used_gpu_blocks
            ∧ j.num_used_gpu_blocks + j.num_watermark_blocks ≤ j.num_total_gpu_blocks
            ∧ 0 ≤ j.num_watermark_blocks
            ∧ j.num_total_gpu_blocks = T) →
        (∀ j ∈ infos, j.num_waiting_requests = 0) →
        Loadv2.dispatchInfo infos req = some i →
        req ≤ i.num_free_gpu_blocks - i.num_watermark_blocks
        ∨ (∀ j ∈ infos, j.num_free_gpu_blocks - j.num_watermark_blocks < req)) := by
  refine ⟨?_, ?_, ?_⟩
  · intro infos src req d hd
    cases hh : Urgency.get_dst_head infos req.n_blocks with
    | none =>
      simp only [Urgency.get_dst_instance, hh] at hd
      exact Option.noConfusion hd
    | some i =>
      have hid : i.instance_id = d := by
        simp only [Urgency.get_dst_instance, hh] at hd
        by_cases hi : i.instance_id = src
        · rw [if_pos hi] at hd; exact Option.noConfusion hd
        · rw [if_neg hi] at hd; injection hd
      have hmemsort : i ∈ stableSort (fun a b => decide (Urgency.dstKey b ≤ Urgency.dstKey a))
          (infos.filter (fun x =>
            0 < x.num_free_gpu_blocks - x.num_watermark_blocks - req.n_blocks)) := by
        apply List.mem_of_mem_head?
        simp only [Urgency.get_dst_head] at hh
        rw [hh]
        rfl
      have hmemfil := (stableSort_perm _ _).mem_iff.mp hmemsort
      rcases List.mem_filter.mp hmemfil with ⟨hin, hpred⟩
      exact ⟨i, hin, hid, of_decide_eq_true hpred⟩
  · intro c r t h2 hchoose
    simp only [GlobalScheduler.planChoose] at hchoose
    cases hF : (GlobalScheduler.availEntries c).filter (fun e => 0 < e.2.1 - r.n_blocks) with
    | nil =>
      rw [hF] at hchoose
      exact Option.noConfusion hchoose
    | cons f fs =>
      rw [hF, h2] at hchoose
      have ht : (pyMinBy (fun e => e.2.2 + r.n_blocks - GlobalScheduler.maxUsedOf c) f fs).1
          = t := by injection hchoose
      have hmem := pyMinBy_mem (fun e : String × Int × Int =>
        e.2.2 + r.n_blocks - GlobalScheduler.maxUsedOf c) fs f
      rw [← hF] at hmem
      rcases List.mem_filter.mp hmem with ⟨hin, hpred⟩
      exact ⟨_, hin, ht, of_decide_eq_true hpred⟩
  · intro T req infos i hinv hall hdi
    cases infos with
    | nil => exact Option.noConfusion hdi
    | cons x xs =>
      have hlen : ((x :: xs).filter (fun j => j.num_waiting_requests == 0)).length
          = (x :: xs).length := by
        refine (filter_length_eq_iff _ _).mpr ?_
        intro a ha
        simpa using hall a ha
      have hM : listMax ((x :: xs).map (·.num_used_gpu_blocks)) ≤ T := by
        simp only [List.map_cons]
        apply listMax_le
        intro b hb
        have hb2 : b ∈ (x :: xs).map (·.num_used_gpu_blocks) := by
          rw [List.map_cons]
          exact hb
        rcases List.mem_map.mp hb2 with ⟨j, hj, hjb⟩
        rcases hinv j hj with ⟨_, hle, hwm, hT⟩
        omega
      simp only [Loadv2.dispatchInfo] at hdi
      rw [if_pos hlen] at hdi
      cases hF : (x :: xs).filter (fun j =>
          0 ≤ listMax ((x :: xs).map (·.num_used_gpu_blocks))
            - j.num_watermark_blocks - j.num_used_gpu_blocks - req) with
      | cons e es =>
        rw [hF] at hdi
        rw [if_pos (by simp : 0 < (e :: es).length)] at hdi
        rw [stableSort_head] at hdi
        have hi : chooseFirst (fun a b => decide
            (listMax ((x :: xs).map (·.num_used_gpu_blocks))
                - a.num_watermark_blocks - a.num_used_gpu_blocks - req
              ≤ listMax ((x :: xs).map (·.num_used_gpu_blocks))
                - b.num_watermark_blocks - b.num_used_gpu_blocks - req)) e es = i := by
          injection hdi
        have hmem := chooseFirst_mem (fun a b => decide
            (listMax ((x :: xs).map (·.num_used_gpu_blocks))
                - a.num_watermark_blocks - a.num_used_gpu_blocks - req
              ≤ listMax ((x :: xs).map (·.num_used_gpu_blocks))
                - b.num_watermark_blocks - b.num_used_gpu_blocks - req)) e es
        rw [hi, ← hF] at hmem
        rcases List.mem_filter.mp hmem with ⟨hin, hpred⟩
        have hslack := of_decide_eq_true hpred
        rcases hinv i hin with ⟨hfree, hle, hwm, hT⟩
        left
        omega
      | nil =>
        rw [hF] at hdi
        rw [if_neg (by simp)] at hdi
        rw [stableSort_head] at hdi
        have hi : chooseFirst (fun a b => decide
            (a.num_used_gpu_blocks + req + a.num_watermark_blocks
                - listMax ((x :: xs).map (·.num_used_gpu_blocks))
              ≤ b.num_used_gpu_blocks + req + b.num_watermark_blocks
                - listMax ((x :: xs).map (·.num_used_gpu_blocks)))) x xs = i := by
          injection hdi
        by_cases hadm : ∃ j, j ∈ x :: xs
            ∧ req ≤ j.num_free_gpu_blocks - j.num_watermark_blocks
        · left
          rcases hadm with ⟨j, hjmem, hjadm⟩
          have hmin := chooseFirst_le (fun a b => decide
              (a.num_used_gpu_blocks + req + a.num_watermark_blocks
                  - listMax ((x :: xs).map (·.num_used_gpu_blocks))
                ≤ b.num_used_gpu_blocks + req + b.num_watermark_blocks
                  - listMax ((x :: xs).map (·.num_used_gpu_blocks))))
            (fun a b => by
              rcases le_total
                (a.num_used_gpu_blocks + req + a.num_watermark_blocks
                  - listMax ((x :: xs).map (·.num_used_gpu_blocks)))
                (b.num_used_gpu_blocks + req + b.num_watermark_blocks
                  - listMax ((x :: xs).map (·.num_used_gpu_blocks))) with hh | hh
              · exact Or.inl (decide_eq_true hh)
              · exact Or.inr (decide_eq_true hh))
            (fun a b cc h1 hcc =>
              decide_eq_true (le_trans (of_decide_eq_true h1) (of_decide_eq_true hcc)))
            x xs j hjmem
          rw [hi] at hmin
          have hkey := of_decide_eq_true hmin
          have hmem := chooseFirst_mem (fun a b => decide
              (a.num_used_gpu_blocks + req + a.num_watermark_blocks
                  - listMax ((x :: xs).map (·.num_used_gpu_blocks))
                ≤ b.num_used_gpu_blocks + req + b.num_watermark_blocks
                  - listMax ((x :: xs).map (·.num_used_gpu_blocks)))) x xs
          rw [hi] at hmem
          rcases hinv i hmem with ⟨hfree, hle, hwm, hT⟩
          rcases hinv j hjmem with ⟨hfreej, hlej, hwmj, hTj⟩
          omega
        · right
          intro j hj
          push_neg at hadm
          exact hadm j hj

/-- C1 amended witness: a single candidate with 20 free blocks, empty
frontier set, 10-block request; the fallback branch chooses it and it
fits. -/
theorem admissibility_amended_witness :
    ((GlobalScheduler.availEntries [("a", 20, 0)]).filter
        (fun e => 0 < GlobalScheduler.maxUsedOf [("a", 20, 0)] - e.2.2
          - ({ request_id := "r", n_blocks := 10 } : Request).n_blocks) = [])
    ∧ GlobalScheduler.planChoose [("a", 20, 0)] { request_id := "r", n_blocks := 10 }
        = some "a"
    ∧ ∃ e, e ∈ GlobalScheduler.availEntries [("a", 20, 0)] ∧ e.1 = "a"
        ∧ 0 < e.2.1 - ({ request_id := "r", n_blocks := 10 } : Request).n_blocks := by
  refine ⟨by decide, by decide, ?_⟩
  exact admissibility_amended.2.1 [("a", 20, 0)] { request_id := "r", n_blocks := 10 } "a"
    (by decide) (by decide)

/-- Closed form of K round-robin steps from a cursor one below m: the
k-th output is the sorted id at index (m + k) mod n. -/
theorem rr_run_eq (ids : List String) (hne : ids ≠ []) :
    ∀ (K m : Nat),
      RoundRobin.run ids K ((m : Int) - 1)
        = (List.range K).map (fun k =>
            (stableSort RoundRobin.strLe ids).get? ((m + k) % ids.length)) := by
  have hlen : (stableSort RoundRobin.strLe ids).length = ids.length :=
    (stableSort_perm _ _).length_eq
  have hn : ids.length ≠ 0 := by
    intro h0
    exact hne (List.length_eq_zero.mp h0)
  intro K
  induction K with
  | zero => intro m; rfl
  | succ K ih =>
    intro m
    have hsortlen : ¬ (stableSort RoundRobin.strLe ids).length = 0 := by
      rw [hlen]
      exact hn
    have hstep : RoundRobin.dispatch ids ((m : Int) - 1)
        = ((stableSort RoundRobin.strLe ids).get? (m % ids.length),
           ((m % ids.length : Nat) : Int)) := by
      simp only [RoundRobin.dispatch]
      rw [if_neg hsortlen]
      have hc : (m : Int) - 1 + 1 = (m : Int) := by ring
      rw [hc, hlen]
      have hmod : (m : Int) % ((ids.length : Nat) : Int) = ((m % ids.length : Nat) : Int) :=
        (Int.natCast_mod m ids.length).symm
      rw [hmod, Int.toNat_natCast]
    simp only [RoundRobin.run, hstep]
    have hcursor : ((m % ids.length : Nat) : Int) = ((m % ids.length + 1 : Nat) : Int) - 1 := by
      push_cast
      ring
    rw [hcursor, ih (m % ids.length + 1)]
    have hr : List.range (K + 1) = 0 :: (List.range K).map Nat.succ :=
      List.range_succ_eq_map K
    rw [hr]
    simp only [List.map_cons, List.map_map]
    congr 1
    have hfun : (fun k =>
          (stableSort RoundRobin.strLe ids).get? ((m % ids.length + 1 + k) % ids.length))
        = ((fun k => (stableSort RoundRobin.strLe ids).get? ((m + k) % ids.length))
            ∘ Nat.succ) := by
      funext k
      simp only [Function.comp_apply]
      have h1 : m % ids.length + 1 + k = m % ids.length + (1 + k) := by omega
      have h2 : (m % ids.length + (1 + k)) % ids.length = (m + (1 + k)) % ids.length :=
        Nat.mod_add_mod m ids.length (1 + k)
      have h3 : m + (1 + k) = m + Nat.succ k := by omega
      rw [h1, h2, h3]
    rw [hfun]

/-- C8: from a fresh cursor the k-th round-robin output is the sorted
id at index k mod n (ids are visited cyclically in sorted order), and
with distinct ids each id is returned either floor(K/N) or ceil(K/N)
times over K calls. -/
theorem roundrobin_fairness :
    ∀ (ids : List String) (K : Nat), ids ≠ [] →
      (RoundRobin.run ids K (-1)
        = (List.range K).map (fun k =>
            (stableSort RoundRobin.strLe ids).get? (k % ids.length)))
      ∧ (ids.Nodup → ∀ ins ∈ ids,
          (RoundRobin.run ids K (-1)).count (some ins) = K / ids.length
          ∨ (RoundRobin.run ids K (-1)).count (some ins)
              = (K + ids.length - 1) / ids.length) := by
  intro ids K hne
  have hn : 0 < ids.length := List.length_pos.mpr hne
  have hlen : (stableSort RoundRobin.strLe ids).length = ids.length :=
    (stableSort_perm _ _).length_eq
  have hrun : RoundRobin.run ids K (-1)
      = (List.range K).map (fun k =>
          (stableSort RoundRobin.strLe ids).get? (k % ids.length)) := by
    have h := rr_run_eq ids hne K 0
    have h0 : ((0 : Nat) : Int) - 1 = (-1 : Int) := by norm_num
    rw [h0] at h
    rw [h]
    congr 1
    funext k
    rw [Nat.zero_add]
  refine ⟨hrun, ?_⟩
  intro hnodup ins hins
  have hsortnodup : (stableSort RoundRobin.strLe ids).Nodup :=
    ((stableSort_perm RoundRobin.strLe ids).nodup_iff).mpr hnodup
  have hmem : ins ∈ stableSort RoundRobin.strLe ids :=
    ((stableSort_perm RoundRobin.strLe ids).mem_iff).mpr hins
  rcases List.mem_iff_get.mp hmem with ⟨⟨j, hj⟩, hget⟩
  have hjlt : j < ids.length := by rw [← hlen]; exact hj
  have hget2 : (stableSort RoundRobin.strLe ids).get? j = some ins := by
    rw [List.get?_eq_getElem?, List.getElem?_eq_getElem hj]
    exact congrArg some hget
  have hcount : (RoundRobin.run ids K (-1)).count (some ins)
      = (List.range K).countP (fun k => k % ids.length == j) := by
    rw [hrun, List.count_eq_countP, List.countP_map]
    apply List.countP_congr
    intro k _
    simp only [Function.comp_apply, beq_iff_eq]
    constructor
    · intro hcon
      have hklt : k % ids.length < (stableSort RoundRobin.strLe ids).length := by
        rw [hlen]
        exact Nat.mod_lt _ hn
      apply List.getElem?_inj hklt hsortnodup
      rw [← List.get?_eq_getElem?, ← List.get?_eq_getElem?, hget2]
      exact hcon
    · intro hcon
      rw [hcon]
      exact hget2
  rw [hcount, countP_range_mod_full ids.length K j hn hjlt]
  by_cases hcase : j < K % ids.length
  · right
    rw [if_pos hcase]
    exact ceil_div_of_mod_pos K ids.length hn (by omega)
  · left
    rw [if_neg hcase]
    omega

/-- C8 witness: ids x, y, z and four calls from a fresh scheduler give
x, y, z, x, and x is returned twice, the ceiling of 4 over 3. -/
theorem roundrobin_fairness_witness :
    RoundRobin.run ["x", "y", "z"] 4 (-1)
        = [some "x", some "y", some "z", some "x"]
    ∧ ((RoundRobin.run ["x", "y", "z"] 4 (-1)).count (some "x") = 4 / 3
        ∨ (RoundRobin.run ["x", "y", "z"] 4 (-1)).count (some "x") = (4 + 3 - 1) / 3) := by
  have h := roundrobin_fairness ["x", "y", "z"] 4 (by decide)
  constructor
  · rw [h.1]
    decide
  · exact h.2 (by decide) "x" (by decide)
